import Mathlib

/-!
Verification of the local maps manager service (LocalMapsManagerService).

The service manages Beat Saber custom-map folders: it scans the CustomLevels
folder of a version, computes a content hash per map (sha1 over the raw
info.dat text followed by every chart and lightshow file referenced by the
manifest, in declaration order), caches (folder name -> manifest, hash),
brings maps in from zip archives, and deletes maps by record list or hash.

The embedding below translates the functions of the service into pure Lean
functions over an explicit filesystem state.  External collaborators that
are not part of the repository (the sha1 digest, the JSON manifest parser,
the song-details cache) are abstracted as parameters of an environment
record; the Node path/fs primitives are modelled directly.
-/

namespace BsMaps

/-- Raw file contents, one natural number per byte or character code. -/
abbrev Bytes := List Nat

/-- Character codes of a string (model of reading a string as binary data). -/
def strBytes (s : String) : Bytes := s.data.map Char.toNat

/-- Decode bytes back into a string (model of utf-8 decoding). -/
def bytesToStr (b : Bytes) : String := String.mk (b.map Char.ofNat)

/-- Lower-case an ASCII letter; other characters unchanged. -/
def asciiLower (c : Char) : Char :=
  if 'A' ≤ c ∧ c ≤ 'Z' then Char.ofNat (c.toNat + 32) else c

/-- Model of JavaScript String.prototype.toLowerCase for ASCII names. -/
def strLower (s : String) : String := String.mk (s.data.map asciiLower)

/-- Split a character list at every occurrence of a separator. -/
def splitOnChar (sep : Char) : List Char → List (List Char)
  | [] => [[]]
  | c :: cs =>
    let r := splitOnChar sep cs
    if c = sep then [] :: r
    else
      match r with
      | h :: t => (c :: h) :: t
      | [] => [[c]]

/-- Path components of a posix path ("a/b/c" becomes ["a", "b", "c"]). -/
def splitPath (s : String) : List String := (splitOnChar '/' s.data).map String.mk

/-- Model of Node path.join for two components (posix separator). -/
def pathJoin (a b : String) : String := a ++ "/" ++ b

/-- Model of Node path.basename: the last path component. -/
def basename (s : String) : String := (splitPath s).getLastD ""

/-- Model of Node path.basename(p, ext): last component with the extension
stripped when it is a proper suffix. -/
def basenameExt (p ext : String) : String :=
  let b := basename p
  if ext.data.isSuffixOf b.data && !(b == ext) then
    String.mk (b.data.take (b.data.length - ext.data.length))
  else b

/-- Model of Node path.dirname: everything before the last component, or
"." when there is no separator. -/
def dirname (s : String) : String :=
  let parts := splitPath s
  if parts.length ≤ 1 then "." else String.intercalate "/" parts.dropLast

/-- True when p lies strictly inside the folder root, that is p starts
with root followed by the path separator. -/
def isUnder (root p : String) : Bool := List.isPrefixOf (root.data ++ ['/']) p.data

/-- True when p is a direct child entry of the folder parent. -/
def isDirectChild (parent p : String) : Bool :=
  isUnder parent p && !((p.data.drop (parent.data.length + 1)).contains '/')

/-- Model of Node url.pathToFileURL().href (percent-encoding abstracted). -/
def fileUrl (p : String) : String := "file://" ++ p

/-- Filesystem errors raised by the modelled Node primitives, plus the
parse error of the service itself (CustomError "cannot-parse-map-info"). -/
inductive LoadError where
  | enoent (p : String)
  | eisdir (p : String)
  | ioError (p : String)
  | typeErrorUndefined
  | nullDeref
  | cannotParseMapInfo (p : String) (msg : String)
deriving DecidableEq, Repr

/-- Explicit filesystem state: the set of existing directories and the
files with their contents.  All paths are absolute posix-style strings. -/
structure FSState where
  dirs : List String
  files : List (String × Bytes)
deriving DecidableEq, Repr

/-- Model of fs.pathExistsSync / pathExist. -/
def FSState.pathExists (fs : FSState) (p : String) : Bool :=
  fs.dirs.any (fun d => d == p) || fs.files.any (fun f => f.1 == p)

/-- Modelled from the spec: getFilesInFolder lists the full paths of the
files directly inside a folder (repository helper, not under src). -/
def FSState.filesIn (fs : FSState) (parent : String) : List String :=
  (fs.files.map (fun f => f.1)).filter (fun p => isDirectChild parent p)

/-- Modelled from the spec: getFoldersInFolder lists the full paths of the
immediate subfolders of a folder (repository helper, not under src). -/
def FSState.foldersIn (fs : FSState) (parent : String) : List String :=
  fs.dirs.filter (fun p => isDirectChild parent p)

/-- Model of fs.readFile returning raw bytes; fails with ENOENT when the
file does not exist. -/
def FSState.readBytes (fs : FSState) (p : String) : Except LoadError Bytes :=
  match fs.files.find? (fun f => f.1 == p) with
  | some f => Except.ok f.2
  | none => Except.error (LoadError.enoent p)

/-- Model of fs.mkdir with recursive: true (parents abstracted away). -/
def FSState.mkdirRec (fs : FSState) (p : String) : FSState :=
  if fs.dirs.any (fun d => d == p) then fs else { fs with dirs := fs.dirs ++ [p] }

/-- Model of fs.writeFile: create or overwrite a file. -/
def FSState.writeFile (fs : FSState) (p : String) (b : Bytes) : FSState :=
  if fs.files.any (fun f => f.1 == p) then
    { fs with files := fs.files.map (fun f => if f.1 == p then (p, b) else f) }
  else { fs with files := fs.files ++ [(p, b)] }

/-- Modelled from the spec: deleteFolder removes a folder recursively
(repository helper, not under src; model of rm -rf). -/
def FSState.deleteFolder (fs : FSState) (p : String) : FSState :=
  { dirs := fs.dirs.filter (fun d => !(d == p || isUnder p d)),
    files := fs.files.filter (fun f => !(f.1 == p || isUnder p f.1)) }

/-- Model of Node fs.unlinkSync: removes a FILE; on a directory it raises
EISDIR without removing anything, and on a missing path it raises ENOENT. -/
def FSState.unlink (fs : FSState) (p : String) : Except LoadError FSState :=
  if fs.dirs.any (fun d => d == p) then Except.error (LoadError.eisdir p)
  else if fs.files.any (fun f => f.1 == p) then
    Except.ok { fs with files := fs.files.filter (fun f => !(f.1 == p)) }
  else Except.error (LoadError.enoent p)

/-- One difficulty (variant) descriptor of a parsed manifest, keeping the
two fields the service reads: the chart file and the lightshow file. -/
structure Difficulty where
  beatmapFilename : Option String
  lightshowDataFilename : Option String
deriving DecidableEq, Repr

/-- Parsed manifest (MapInfo) with the fields the service reads. -/
structure MapInfo where
  coverImageFilename : String
  songFilename : String
  difficulties : List Difficulty
deriving DecidableEq, Repr

/-- Modelled from the spec: a MetadataCache entry, owned by the song cache
service (repository code not under src): manifest plus content hash. -/
structure CacheEntry where
  mapInfo : MapInfo
  hash : String
deriving DecidableEq, Repr

/-- Modelled from the spec: the MetadataCache mapping folder name to
(manifest, hash).  Latest insertion wins on lookup. -/
abbrev Cache := List (String × CacheEntry)

/-- Cache lookup by folder name (getMapInfoFromDirname). -/
def cacheGet (c : Cache) (k : String) : Option CacheEntry :=
  (c.find? (fun e => e.1 == k)).map (fun e => e.2)

/-- Cache insertion by folder name (setMapInfoFromDirname). -/
def cacheSet (c : Cache) (k : String) (v : CacheEntry) : Cache :=
  (k, v) :: c.filter (fun e => !(e.1 == k))

/-- Cache eviction by folder name (deleteMapInfoFromDirname). -/
def cacheDelete (c : Cache) (k : String) : Cache :=
  c.filter (fun e => !(e.1 == k))

/-- External collaborators of the service, abstracted: the sha1 digest of
a byte stream, the manifest parser (JSON.parse plus parseMapInfoDat, a
shared module of the repository outside src), and the song-details cache
lookup. -/
structure Env where
  h : Bytes → String
  parse : String → Except String MapInfo
  songDetails : String → Option String

/-- The BsmLocalMap record the load path produces. -/
structure LoadedMap where
  mapInfo : MapInfo
  coverUrl : String
  songUrl : String
  hash : String
  path : String
  songDetails : Option String
deriving DecidableEq, Repr

/-- The getUrlsAndReturn closure of loadMapInfoFromPath. -/
def getUrlsAndReturn (env : Env) (mapInfo : MapInfo) (hash mapPath : String) : LoadedMap :=
  { mapInfo := mapInfo,
    coverUrl := fileUrl (pathJoin mapPath mapInfo.coverImageFilename),
    songUrl := fileUrl (pathJoin mapPath mapInfo.songFilename),
    hash := hash, path := mapPath,
    songDetails := env.songDetails hash }

/-- Stream the referenced chart and lightshow files of each difficulty, in
manifest declaration order, returning the concatenated bytes that are fed
to the running sha1 context after the raw manifest text. -/
def hashFilesStream (fs : FSState) (mapPath : String) : List Difficulty → Except LoadError Bytes
  | [] => Except.ok []
  | d :: ds =>
    let r1 : Except LoadError Bytes :=
      match d.beatmapFilename with
      | some f => fs.readBytes (pathJoin mapPath f)
      | none => Except.ok []
    match r1 with
    | Except.error e => Except.error e
    | Except.ok b1 =>
      let r2 : Except LoadError Bytes :=
        match d.lightshowDataFilename with
        | some f => fs.readBytes (pathJoin mapPath f)
        | none => Except.ok []
      match r2 with
      | Except.error e => Except.error e
      | Except.ok b2 =>
        match hashFilesStream fs mapPath ds with
        | Except.error e => Except.error e
        | Except.ok rest => Except.ok (b1 ++ b2 ++ rest)

/-- Translation of computeMapHash: parse the raw info text (raising
cannot-parse-map-info on failure), seed the digest with the raw text, then
hash the chart file and the lightshow file of every difficulty in order. -/
def computeMapHash (env : Env) (fs : FSState) (mapPath rawInfoString : String) :
    Except LoadError String :=
  match env.parse rawInfoString with
  | Except.error err => Except.error (LoadError.cannotParseMapInfo mapPath err)
  | Except.ok mapInfo =>
    match hashFilesStream fs mapPath mapInfo.difficulties with
    | Except.error e => Except.error e
    | Except.ok bs => Except.ok (env.h (strBytes rawInfoString ++ bs))

/-- A JavaScript value as relevant to the info-file lookup: Array.find
yields either a string or undefined; null is a distinct value. -/
inductive JSVal where
  | undef
  | null
  | jstr (s : String)
deriving DecidableEq, Repr

/-- Model of Array.prototype.find: first match, or undefined (never null). -/
def jsFind (p : String → Bool) : List String → JSVal
  | [] => JSVal.undef
  | x :: xs => if p x then JSVal.jstr x else jsFind p xs

/-- Model of fs.readFile with utf-8 encoding on a JavaScript value: a
non-string argument rejects with TypeError ERR_INVALID_ARG_TYPE. -/
def readFileUtf8JS (fs : FSState) : JSVal → Except LoadError String
  | JSVal.jstr s => (fs.readBytes s).map bytesToStr
  | JSVal.undef => Except.error LoadError.typeErrorUndefined
  | JSVal.null => Except.error LoadError.typeErrorUndefined

/-- Translation of loadMapInfoFromPath: cache lookup by folder basename;
on a miss, list the folder, locate the info file with Array.find (which
yields undefined when absent, while the code compares against null), read
and parse it, compute the hash and build the record.  The function
performs no cache write. -/
def loadMapInfoFromPath (env : Env) (fs : FSState) (cache : Cache) (mapPath : String) :
    Except LoadError (Option LoadedMap) :=
  match cacheGet cache (basename mapPath) with
  | some e => Except.ok (some (getUrlsAndReturn env e.mapInfo e.hash mapPath))
  | none =>
    let files := fs.filesIn mapPath
    let infoFile := jsFind (fun f => strLower (basename f) == "info.dat") files
    if infoFile == JSVal.null then Except.ok none
    else
      match readFileUtf8JS fs infoFile with
      | Except.error e => Except.error e
      | Except.ok rawInfoString =>
        match env.parse rawInfoString with
        | Except.error err => Except.error (LoadError.cannotParseMapInfo mapPath err)
        | Except.ok mapInfo =>
          match computeMapHash env fs mapPath rawInfoString with
          | Except.error e => Except.error e
          | Except.ok hash => Except.ok (some (getUrlsAndReturn env mapInfo hash mapPath))

/-! ## Scan pipeline (getMaps) -/

/-- Modelled from the spec: splitIntoChunk splits a list into fixed-size
batches (shared array helper of the repository, not under src). -/
def splitIntoChunk : List α → Nat → List (List α)
  | [], _ => []
  | x :: xs, n => (x :: xs.take (n - 1)) :: splitIntoChunk (xs.drop (n - 1)) n
termination_by l _ => l.length
decreasing_by simp [List.length_drop]; omega

/-- The BsmLocalMapsProgress snapshot emitted by getMaps. -/
structure BsmLocalMapsProgress where
  total : Nat
  loaded : Nat
  maps : List LoadedMap
deriving DecidableEq, Repr

/-- Accumulated state of a folder scan: the shared cache, the progression
counter, the snapshots emitted so far and the loaded records. -/
structure ScanAcc where
  cache : Cache
  loaded : Nat
  snaps : List BsmLocalMapsProgress
  maps : List LoadedMap
deriving Repr

/-- One folder of a getMaps scan: load the folder, and on success write
the cache entry for the folder basename, advance the loaded counter and
emit one snapshot.  A null result or a per-folder error is tolerated and
dropped (allSettled with removeFalsy). -/
def scanStep (env : Env) (fs : FSState) (total : Nat) (acc : ScanAcc) (mapPath : String) :
    ScanAcc :=
  match loadMapInfoFromPath env fs acc.cache mapPath with
  | Except.error _ => acc
  | Except.ok none => acc
  | Except.ok (some m) =>
    { cache := cacheSet acc.cache (basename mapPath) ⟨m.mapInfo, m.hash⟩,
      loaded := acc.loaded + 1,
      snaps := acc.snaps ++ [⟨total, acc.loaded + 1, []⟩],
      maps := acc.maps ++ [m] }

/-- Translation of getMaps, with the resolved levels folder passed in (the
version path resolution is an external collaborator): when the folder does
not exist the stream completes with no emission at all; otherwise the
subfolders are processed in chunks of 50 and a final snapshot carrying the
result set is emitted.  Returns the emitted snapshots and the cache. -/
def getMapsModel (env : Env) (fs : FSState) (cache : Cache) (levelsFolder : String) :
    List BsmLocalMapsProgress × Cache :=
  if fs.pathExists levelsFolder then
    let levelsPaths := fs.foldersIn levelsFolder
    let total := levelsPaths.length
    let chunks := splitIntoChunk levelsPaths 50
    let acc := chunks.foldl (fun a chunk => chunk.foldl (scanStep env fs total) a)
      ⟨cache, 0, [], []⟩
    (acc.snaps ++ [⟨total, acc.loaded, acc.maps⟩], acc.cache)
  else ([], cache)

/-! ## Deletion pipelines -/

/-- The DeleteMapsProgress snapshot emitted by deleteMaps. -/
structure DeleteMapsProgress where
  total : Nat
  deleted : Nat
deriving DecidableEq, Repr

/-- Loop of deleteMaps: for each map path, if it exists delete the folder
recursively, evict the cache entry by basename and advance the counter;
one snapshot is emitted per map regardless of existence. -/
def deleteMapsLoop (total : Nat) :
    List String → FSState → Cache → Nat → List DeleteMapsProgress × FSState × Cache
  | [], fs, c, _ => ([], fs, c)
  | p :: rest, fs, c, del =>
    if fs.pathExists p then
      let fs1 := fs.deleteFolder p
      let c1 := cacheDelete c (basename p)
      let out := deleteMapsLoop total rest fs1 c1 (del + 1)
      (⟨total, del + 1⟩ :: out.1, out.2)
    else
      let out := deleteMapsLoop total rest fs c del
      (⟨total, del⟩ :: out.1, out.2)

/-- Translation of deleteMaps on the paths of the given records. -/
def deleteMapsModel (maps : List String) (fs : FSState) (cache : Cache) :
    List DeleteMapsProgress × FSState × Cache :=
  deleteMapsLoop maps.length maps fs cache 0

/-- The Progression snapshot emitted by deleteMapsFromHashs and by
the counters of the zip-import pipeline. -/
structure Progression where
  total : Nat
  current : Nat
deriving DecidableEq, Repr

/-- Result of deleteMapsFromHashs: emitted snapshots, final filesystem and
cache, the folders that matched a requested hash (in processing order) and
the final value of the current counter. -/
structure DelHOut where
  snaps : List Progression
  fs : FSState
  cache : Cache
  matched : List String
  finalCur : Nat
deriving Repr

/-- The per-folder condition of deleteMapsFromHashs: the folder loads
successfully (tryit swallows errors) and its hash is among the requested
hashes. -/
def delHit (env : Env) (hashs : List String) (fs : FSState) (c : Cache) (p : String) : Bool :=
  match loadMapInfoFromPath env fs c p with
  | Except.ok (some m) => hashs.contains m.hash
  | _ => false

/-- Loop of deleteMapsFromHashs: iterate over the installed folders; load
each one (errors swallowed by tryit), and when its hash is among the
requested hashes delete the folder, evict the cache entry and advance the
counter; one snapshot is emitted per installed folder. -/
def deleteFromHashsLoop (env : Env) (hashs : List String) (total : Nat) :
    List String → FSState → Cache → Nat → DelHOut
  | [], fs, c, cur => ⟨[], fs, c, [], cur⟩
  | p :: rest, fs, c, cur =>
    if delHit env hashs fs c p then
      let out := deleteFromHashsLoop env hashs total rest (fs.deleteFolder p)
        (cacheDelete c (basename p)) (cur + 1)
      ⟨⟨total, cur + 1⟩ :: out.snaps, out.fs, out.cache, p :: out.matched, out.finalCur⟩
    else
      let out := deleteFromHashsLoop env hashs total rest fs c cur
      ⟨⟨total, cur⟩ :: out.snaps, out.fs, out.cache, out.matched, out.finalCur⟩

/-- Translation of deleteMapsFromHashs, with the resolved version maps
folder passed in: total is the number of requested hashes, the iteration
is over the folders currently installed. -/
def deleteMapsFromHashsModel (env : Env) (fs : FSState) (cache : Cache)
    (versionMapsPath : String) (hashs : List String) : DelHOut :=
  deleteFromHashsLoop env hashs hashs.length (fs.foldersIn versionMapsPath) fs cache 0

/-! ## Import pipeline (importMaps / handleZipPaths / importMap) -/

/-- One entry of a zip archive: its name (posix-relative path inside the
archive), whether it is a directory, and its content.  A content of none
models an entry whose extraction fails with an I/O error. -/
structure ZipEntry where
  name : String
  isDir : Bool
  content : Option Bytes
deriving DecidableEq, Repr

/-- A zip archive as a list of entries in insertion order. -/
structure ZipFile where
  entries : List ZipEntry
deriving DecidableEq, Repr

/-- Matcher for the INFO_DAT_REGEX tail: an I or i, then nfo, any single
character (the regex dot), then dat. -/
def infoDatSuffix : List Char → Bool
  | [c1, 'n', 'f', 'o', _, 'd', 'a', 't'] => c1 == 'I' || c1 == 'i'
  | _ => false

/-- Model of the INFO_DAT_REGEX test (posix branch): the name ends in
(I|i)nfo.dat and that tail is at the start of the name or preceded by the
path separator. -/
def matchesInfoDat (name : String) : Bool :=
  let cs := name.data
  let n := cs.length
  if n < 8 then false
  else infoDatSuffix (cs.drop (n - 8)) && (n == 8 || cs.getD (n - 9) ' ' == '/')

/-- Model of zip.file(INFO_DAT_REGEX): the non-directory entries whose
name matches, in archive order. -/
def matchedInfoFiles (z : ZipFile) : List ZipEntry :=
  z.entries.filter (fun e => !e.isDir && matchesInfoDat e.name)

/-- One planned archive of the import: its path, whether it holds a single
map (no matched name contains a path separator) and the folders inside the
archive holding a matched manifest. -/
structure ZipPlanEntry where
  path : String
  single : Bool
  folders : List String
deriving DecidableEq, Repr

/-- Planning of one readable archive: skipped (none) when it contains no
matched manifest, otherwise classified single or multi with its folders. -/
def planOfZip (zp : String) (z : ZipFile) : Option ZipPlanEntry :=
  let files := matchedInfoFiles z
  if files.length == 0 then none
  else some ⟨zp, ((files.find? (fun f => f.name.data.contains '/')).isNone),
    files.map (fun f => dirname f.name)⟩

/-- Planning stage of handleZipPaths: each archive is read (an unreadable
archive is skipped with a warning, like one with no matched manifest) and
the total number of work units is accumulated. -/
def planZips (zipRead : String → Option ZipFile) : List String → List ZipPlanEntry × Nat
  | [] => ([], 0)
  | zp :: rest =>
    let out := planZips zipRead rest
    match zipRead zp with
    | none => out
    | some z =>
      match planOfZip zp z with
      | none => out
      | some pe => (pe :: out.1, out.2 + (matchedInfoFiles z).length)

/-- Model of zip.files (for a single-map archive) and of
zip.folder(relativeFolder).forEach (for one map of a multi-map archive):
the entries in scope with the relative path they are extracted under. -/
def zipEntriesUnder (z : ZipFile) (relativeFolder : String) : List (String × ZipEntry) :=
  if relativeFolder == "" then z.entries.map (fun e => (e.name, e))
  else (z.entries.filter (fun e => isUnder relativeFolder e.name)).map
    (fun e => (String.mk (e.name.data.drop (relativeFolder.data.length + 1)), e))

/-- Extraction loop of importMap: directories are created, files are
written; an entry whose content cannot be read aborts the loop with the
error and the filesystem as mutated so far. -/
def extractEntries (fs : FSState) (mapPath : String) :
    List (String × ZipEntry) → FSState × Option LoadError
  | [] => (fs, none)
  | (rel, e) :: rest =>
    let filepath := pathJoin mapPath rel
    if e.isDir then extractEntries (fs.mkdirRec filepath) mapPath rest
    else
      match e.content with
      | none => (fs, some (LoadError.ioError e.name))
      | some b => extractEntries (fs.writeFile filepath b) mapPath rest

/-- Translation of importMap: compute the destination folder, record
whether it pre-existed, create it when new, extract every entry in scope,
then load the resulting folder.  On any failure, when the folder was
freshly created the code calls unlinkSync on it (which on a directory
raises EISDIR instead of removing it, and that raised error replaces the
original one); when the folder pre-existed it is left in place with a
warning and the original error is re-raised.  This definition is the try
block; importMap below adds the catch block. -/
def importMapTry (env : Env) (zip : ZipFile)
    (relativeFolder mapName mapsFolder : String)
    (fs : FSState) (cache : Cache) : Except LoadError LoadedMap × FSState :=
  let mapPath := pathJoin mapsFolder mapName
  let existing := fs.pathExists mapPath
  let fs1 := if existing then fs else fs.mkdirRec mapPath
  let ext := extractEntries fs1 mapPath (zipEntriesUnder zip relativeFolder)
  match ext.2 with
  | some e => (Except.error e, ext.1)
  | none =>
    match loadMapInfoFromPath env ext.1 cache mapPath with
    | Except.error e => (Except.error e, ext.1)
    | Except.ok none => (Except.error LoadError.nullDeref, ext.1)
    | Except.ok (some m) =>
      (Except.ok { m with songDetails := env.songDetails m.hash }, ext.1)

/-- The catch block of importMap wrapped around its try block. -/
def importMap (env : Env) (zip : ZipFile)
    (relativeFolder mapName mapsFolder : String)
    (fs : FSState) (cache : Cache) : Except LoadError LoadedMap × FSState :=
  let mapPath := pathJoin mapsFolder mapName
  let existing := fs.pathExists mapPath
  match importMapTry env zip relativeFolder mapName mapsFolder fs cache with
  | (Except.ok m, fsOut) => (Except.ok m, fsOut)
  | (Except.error e, fsOut) =>
    if existing then (Except.error e, fsOut)
    else
      match fsOut.unlink mapPath with
      | Except.error ue => (Except.error ue, fsOut)
      | Except.ok fsOut2 => (Except.error e, fsOut2)

/-- Snapshot of the import progress with the per-item result slot. -/
structure ImpSnapshot where
  total : Nat
  current : Nat
  data : Option LoadedMap
deriving DecidableEq, Repr

/-- Output of the per-folder loop over one multi-map archive. -/
structure MultiOut where
  snaps : List ImpSnapshot
  fs : FSState
  cur : Nat
  results : List (Except LoadError LoadedMap)
deriving Repr

/-- Loop of handleZipPaths over the folders of a multi-map archive: per
unit, advance the counter, try importMap, on failure clear the result
slot, and emit one snapshot either way (try / catch / finally). -/
def importMultiUnits (env : Env) (zip : ZipFile) (mapsFolder : String)
    (cache : Cache) (total : Nat) :
    List String → FSState → Nat → MultiOut
  | [], fs, cur => ⟨[], fs, cur, []⟩
  | rf :: rest, fs, cur =>
    let res := importMap env zip rf (basename rf) mapsFolder fs cache
    let out := importMultiUnits env zip mapsFolder cache total rest res.2 (cur + 1)
    ⟨⟨total, cur + 1, res.1.toOption⟩ :: out.snaps, out.fs, out.cur, res.1 :: out.results⟩

/-- Processing of one planned archive in stage 2 of handleZipPaths: a
single-map archive is one unit imported under the archive basename (a
failure is caught by the per-archive catch, which clears the result slot
and still emits); a multi-map archive runs one unit per folder.  An
archive unreadable at this stage emits one snapshot with an empty slot. -/
def processZip (env : Env) (zipRead : String → Option ZipFile) (mapsFolder : String)
    (cache : Cache) (total : Nat) (pe : ZipPlanEntry) (fs : FSState) (cur : Nat) :
    List ImpSnapshot × FSState × Nat :=
  match zipRead pe.path with
  | none => ([⟨total, cur, none⟩], fs, cur)
  | some zip =>
    if pe.single then
      let res := importMap env zip "" (basenameExt pe.path ".zip") mapsFolder fs cache
      ([⟨total, cur + 1, res.1.toOption⟩], res.2, cur + 1)
    else
      let out := importMultiUnits env zip mapsFolder cache total pe.folders fs cur
      (out.snaps, out.fs, out.cur)

/-- Stage 2 of handleZipPaths over all planned archives in order. -/
def processZips (env : Env) (zipRead : String → Option ZipFile) (mapsFolder : String)
    (cache : Cache) (total : Nat) :
    List ZipPlanEntry → FSState → Nat → List ImpSnapshot × FSState
  | [], fs, _ => ([], fs)
  | pe :: rest, fs, cur =>
    let out := processZip env zipRead mapsFolder cache total pe fs cur
    let out2 := processZips env zipRead mapsFolder cache total rest out.2.1 out.2.2
    (out.1 ++ out2.1, out2.2)

/-- The import-level error: CustomError "invalid-zip" raised when no
archive of the batch contains any matched manifest. -/
inductive ImportError where
  | noAssetsFound
deriving DecidableEq, Repr

/-- Translation of handleZipPaths: plan every archive, fail with
noAssetsFound when the total is zero, otherwise emit the initial zero
snapshot and process every planned archive. -/
def handleZipPaths (env : Env) (zipRead : String → Option ZipFile) (fs : FSState)
    (cache : Cache) (zipPaths : List String) (mapsFolder : String) :
    Except ImportError (List ImpSnapshot × FSState) :=
  let plan := planZips zipRead zipPaths
  if plan.2 = 0 then Except.error ImportError.noAssetsFound
  else
    let out := processZips env zipRead mapsFolder cache plan.2 plan.1 fs 0
    Except.ok (⟨plan.2, 0, none⟩ :: out.1, out.2)

/-- The snapshots importMaps pushes to its observer: those of
handleZipPaths when it runs, none when it fails upfront. -/
def importSnapshots (env : Env) (zipRead : String → Option ZipFile) (fs : FSState)
    (cache : Cache) (zipPaths : List String) (mapsFolder : String) : List ImpSnapshot :=
  match handleZipPaths env zipRead fs cache zipPaths mapsFolder with
  | Except.ok out => out.1
  | Except.error _ => []

/-- Decidable equality for Except results, used to evaluate the models on
concrete inputs. -/
instance exceptDecEq {ε α : Type} [DecidableEq ε] [DecidableEq α] : DecidableEq (Except ε α)
  | Except.error a, Except.error b =>
    if h : a = b then Decidable.isTrue (congrArg Except.error h)
    else Decidable.isFalse (fun hc => h (Except.error.inj hc))
  | Except.error _, Except.ok _ => Decidable.isFalse (fun hc => Except.noConfusion hc)
  | Except.ok _, Except.error _ => Decidable.isFalse (fun hc => Except.noConfusion hc)
  | Except.ok a, Except.ok b =>
    if h : a = b then Decidable.isTrue (congrArg Except.ok h)
    else Decidable.isFalse (fun hc => h (Except.ok.inj hc))

/-! ## Concrete test environment used by witnesses and counterexamples -/

/-- A concrete executable digest standing in for sha1 in witnesses: an
injective-enough fold of the byte stream into a short letter string. -/
def hT : Bytes → String :=
  fun b => "h" ++ String.mk (b.map (fun n => Char.ofNat (97 + n % 26)))

/-- A concrete manifest used by witnesses: cover, song, two difficulties
referencing chart files Easy.dat and Hard.dat and one lightshow file. -/
def infoA : MapInfo :=
  { coverImageFilename := "cover.png", songFilename := "song.ogg",
    difficulties := [⟨some "Easy.dat", some "EasyLights.dat"⟩, ⟨some "Hard.dat", none⟩] }

/-- A concrete parser: the raw text RAWINFO parses to infoA, everything
else is a parse error. -/
def parseT : String → Except String MapInfo :=
  fun s => if s == "RAWINFO" then Except.ok infoA else Except.error "bad json"

/-- The concrete environment for witnesses. -/
def envT : Env := ⟨hT, parseT, fun _ => none⟩

/-- A filesystem with one valid map folder maps/A. -/
def fsA : FSState :=
  { dirs := ["maps", "maps/A"],
    files := [("maps/A/Info.dat", strBytes "RAWINFO"), ("maps/A/Easy.dat", [1, 2]),
      ("maps/A/EasyLights.dat", [3]), ("maps/A/Hard.dat", [4, 5, 6])] }

/-- The content hash of map A under the concrete environment. -/
def hashA : String := hT (strBytes "RAWINFO" ++ [1, 2, 3, 4, 5, 6])

/-- The record loading maps/A produces under the concrete environment. -/
def mapA : LoadedMap := getUrlsAndReturn envT infoA hashA "maps/A"

/-- A folder maps/B whose listing holds no info.dat file. -/
def fsNoInfo : FSState :=
  { dirs := ["maps", "maps/B"], files := [("maps/B/song.ogg", [9])] }

/-- An archive whose only entry is a root manifest that fails to extract
(simulated I/O failure mid-import). -/
def zipFail : ZipFile := ⟨[⟨"Info.dat", false, none⟩]⟩

/-- A filesystem holding only the destination root, so the import target
folder is freshly created. -/
def fsRootOnly : FSState := ⟨["maps"], []⟩

/-- A filesystem where the import target folder pre-exists. -/
def fsPre : FSState := ⟨["maps", "maps/MyMap"], []⟩

/-- A valid single-map archive: the manifest at the root plus the files it
references. -/
def zipMyMap : ZipFile :=
  ⟨[⟨"Info.dat", false, some (strBytes "RAWINFO")⟩, ⟨"Easy.dat", false, some [1, 2]⟩,
    ⟨"EasyLights.dat", false, some [3]⟩, ⟨"Hard.dat", false, some [4, 5, 6]⟩]⟩

/-- The archive reader for the concrete import scenario. -/
def zipReadT : String → Option ZipFile :=
  fun p => if p == "downloads/MyMap.zip" then some zipMyMap else none

/-- The two requested hashes for the delete-by-hash counterexample: the
hash of map A plus one that matches nothing installed. -/
def hashsC6 : List String := [hashA, "zzz"]

/-! ## Specification views used by the content-hash claim -/

/-- The filenames referenced by a difficulty list, in manifest declaration
order: for each difficulty the chart file (when present) then the
lightshow file (when present). -/
def refFilesD : List Difficulty → List String
  | [] => []
  | d :: ds => d.beatmapFilename.toList ++ d.lightshowDataFilename.toList ++ refFilesD ds

/-- The filenames referenced by a manifest, in declaration order. -/
def refFiles (info : MapInfo) : List String := refFilesD info.difficulties

/-- Concatenation of the contents of a list of files, given a content
assignment by file name. -/
def contentStream (c : String → Bytes) : List String → Bytes
  | [] => []
  | f :: rest => c f ++ contentStream c rest

/-- Content assignment of the concrete map A, by referenced file name. -/
def cW : String → Bytes :=
  fun f =>
    if f == "Easy.dat" then [1, 2]
    else if f == "EasyLights.dat" then [3]
    else if f == "Hard.dat" then [4, 5, 6]
    else []

/-- Map A relocated to a different folder path, with identical manifest
text and identical referenced file contents. -/
def fsArel : FSState :=
  { dirs := ["other", "other/A"],
    files := [("other/A/Info.dat", strBytes "RAWINFO"), ("other/A/Easy.dat", [1, 2]),
      ("other/A/EasyLights.dat", [3]), ("other/A/Hard.dat", [4, 5, 6])] }

/-- Map A with the bytes of the referenced chart file Easy.dat changed on
disk (used to exhibit that a repeated load re-reads the filesystem). -/
def fsA2 : FSState :=
  { dirs := ["maps", "maps/A"],
    files := [("maps/A/Info.dat", strBytes "RAWINFO"), ("maps/A/Easy.dat", [7, 7]),
      ("maps/A/EasyLights.dat", [3]), ("maps/A/Hard.dat", [4, 5, 6])] }

/-- The content hash of map A after the chart-file change. -/
def hashA2 : String := hT (strBytes "RAWINFO" ++ [7, 7, 3, 4, 5, 6])

/-- The record loading maps/A from fsA2 produces. -/
def mapA2 : LoadedMap := getUrlsAndReturn envT infoA hashA2 "maps/A"

/-- The record importing MyMap.zip produces. -/
def mapMyMap : LoadedMap := getUrlsAndReturn envT infoA hashA "maps/MyMap"

/-- Two folder paths that are distinct and neither of which lies inside
the other; any two distinct direct children of one folder are separate. -/
def separate (p q : String) : Prop := p ≠ q ∧ isUnder p q = false ∧ isUnder q p = false

/-- Separateness is decidable, so witnesses can check it by evaluation. -/
instance separateDec : DecidableRel separate := fun p q =>
  decidable_of_iff (p ≠ q ∧ isUnder p q = false ∧ isUnder q p = false) Iff.rfl

/-- A filesystem with map A plus a second folder maps/B with no manifest
(so maps/B never matches a requested hash). -/
def fsAB : FSState :=
  { dirs := ["maps", "maps/A", "maps/B"],
    files := [("maps/A/Info.dat", strBytes "RAWINFO"), ("maps/A/Easy.dat", [1, 2]),
      ("maps/A/EasyLights.dat", [3]), ("maps/A/Hard.dat", [4, 5, 6]),
      ("maps/B/song.ogg", [9])] }

/-- Monotonicity relation on scan snapshots: counters do not decrease. -/
def scanRel (a b : BsmLocalMapsProgress) : Prop := a.total ≤ b.total ∧ a.loaded ≤ b.loaded

/-- Monotonicity relation on delete-by-list snapshots. -/
def delRel (a b : DeleteMapsProgress) : Prop := a.total ≤ b.total ∧ a.deleted ≤ b.deleted

/-- Monotonicity relation on delete-by-hash snapshots. -/
def progRel (a b : Progression) : Prop := a.total ≤ b.total ∧ a.current ≤ b.current

/-- Monotonicity relation on import snapshots. -/
def impRel (a b : ImpSnapshot) : Prop := a.total ≤ b.total ∧ a.current ≤ b.current

/-! ## Theorems -/

/-- C1: the claim says a freshly created destination folder is entirely
removed from disk before the error is re-raised.  The code instead calls
fs.unlinkSync on the destination folder; unlink cannot remove a
directory, so it raises EISDIR, the folder stays on disk with its partial
content, and the EISDIR error replaces the original import error.  The
code contradicts its own comment (delete the map folder).  First conjunct:
on a failing import into a fresh folder the result is the unlink EISDIR
error and the folder is still present in the filesystem.  Last conjunct:
for a pre-existing destination the original error is re-raised and the
folder is left in place, as the claim states. -/
theorem c1_import_cleanup_bug :
    importMap envT zipFail "" "MyMap" "maps" fsRootOnly [] =
      (Except.error (LoadError.eisdir "maps/MyMap"), ⟨["maps", "maps/MyMap"], []⟩)
    ∧ (importMap envT zipFail "" "MyMap" "maps" fsRootOnly []).2.pathExists "maps/MyMap" = true
    ∧ importMap envT zipFail "" "MyMap" "maps" fsPre [] =
      (Except.error (LoadError.ioError "Info.dat"), fsPre)
    ∧ fsPre.pathExists "maps/MyMap" = true := by decide

/-- Helper: the content stream distributes over list append. -/
theorem contentStream_append (c : String → Bytes) :
    ∀ l1 l2 : List String, contentStream c (l1 ++ l2) = contentStream c l1 ++ contentStream c l2
  | [], _ => rfl
  | f :: rest, l2 => by simp [contentStream, contentStream_append c rest l2]

/-- Helper: the difficulty stream hashes exactly the referenced files of
the difficulty list, in declaration order, when every referenced file
reads back the assigned content. -/
theorem hashFilesStream_spec (fs : FSState) (p : String) (c : String → Bytes) :
    ∀ ds : List Difficulty,
      (∀ f ∈ refFilesD ds, fs.readBytes (pathJoin p f) = Except.ok (c f)) →
      hashFilesStream fs p ds = Except.ok (contentStream c (refFilesD ds))
  | [], _ => rfl
  | d :: ds, h => by
    have hds : ∀ f ∈ refFilesD ds, fs.readBytes (pathJoin p f) = Except.ok (c f) := by
      intro f hf
      exact h f (by simp [refFilesD, hf])
    have ih := hashFilesStream_spec fs p c ds hds
    cases hb : d.beatmapFilename with
    | none =>
      cases hl : d.lightshowDataFilename with
      | none => simp [hashFilesStream, hb, hl, ih, refFilesD, contentStream]
      | some f2 =>
        have h2 := h f2 (by simp [refFilesD, hb, hl])
        simp [hashFilesStream, hb, hl, h2, ih, refFilesD, contentStream, contentStream_append]
    | some f1 =>
      have h1 := h f1 (by simp [refFilesD, hb])
      cases hl : d.lightshowDataFilename with
      | none => simp [hashFilesStream, hb, hl, h1, ih, refFilesD, contentStream, contentStream_append]
      | some f2 =>
        have h2 := h f2 (by simp [refFilesD, hb, hl])
        simp [hashFilesStream, hb, hl, h1, h2, ih, refFilesD, contentStream, contentStream_append]

/-- C2: the content hash is a pure function of the raw manifest text and
the bytes of the referenced chart and lightshow files, in manifest
declaration order.  Given any content assignment c realised by both
folders, the digest equals the abstract digest of the manifest text
followed by the ordered content stream, so two folders with identical
manifest text and identical referenced contents yield the identical
digest regardless of folder path, and repeated calls agree. -/
theorem c2_computeMapHash_content (env : Env) (fs1 fs2 : FSState) (p1 p2 raw : String)
    (info : MapInfo) (c : String → Bytes)
    (hp : env.parse raw = Except.ok info)
    (h1 : ∀ f ∈ refFiles info, fs1.readBytes (pathJoin p1 f) = Except.ok (c f))
    (h2 : ∀ f ∈ refFiles info, fs2.readBytes (pathJoin p2 f) = Except.ok (c f)) :
    computeMapHash env fs1 p1 raw
      = Except.ok (env.h (strBytes raw ++ contentStream c (refFiles info)))
    ∧ computeMapHash env fs1 p1 raw = computeMapHash env fs2 p2 raw := by
  have e1 := hashFilesStream_spec fs1 p1 c info.difficulties h1
  have e2 := hashFilesStream_spec fs2 p2 c info.difficulties h2
  refine ⟨?_, ?_⟩
  · simp [computeMapHash, hp, e1, refFiles]
  · simp [computeMapHash, hp, e1, e2, refFiles]

/-- Witness for C2: map A at maps/A and the same map relocated to
other/A produce the same digest, equal to the digest of the manifest text
followed by the referenced contents in order. -/
theorem c2_witness :
    computeMapHash envT fsA "maps/A" "RAWINFO"
      = Except.ok (hT (strBytes "RAWINFO" ++ contentStream cW (refFiles infoA)))
    ∧ computeMapHash envT fsA "maps/A" "RAWINFO"
      = computeMapHash envT fsArel "other/A" "RAWINFO" :=
  c2_computeMapHash_content envT fsA fsArel "maps/A" "other/A" "RAWINFO" infoA cW
    (by decide) (by decide) (by decide)

/-- C3: the claim says that on a cache miss over a folder with no
info.dat in its listing the load returns the not-found value (null).  In
the code Array.find yields undefined when nothing matches, the comparison
infoFile === null is therefore never true, and readFile(undefined) rejects
with a TypeError, so the call raises instead of returning null. -/
theorem c3_missing_info_raises :
    loadMapInfoFromPath envT fsNoInfo [] "maps/B" = Except.error LoadError.typeErrorUndefined
    ∧ loadMapInfoFromPath envT fsNoInfo [] "maps/B" ≠ Except.ok none := by decide

/-- C4 counterexample: loadMapInfoFromPath performs no cache write, so
after a first successful cache-miss load the cache is unchanged (here,
still empty) and a second load with that same cache re-reads the folder
files: with the on-disk chart bytes changed between the two calls, the
second load returns a different hash, contradicting the claim that the
second load hits the cache and returns the identical manifest and hash
without re-reading the filesystem. -/
theorem c4_counterexample :
    loadMapInfoFromPath envT fsA [] "maps/A" = Except.ok (some mapA)
    ∧ loadMapInfoFromPath envT fsA2 [] "maps/A" = Except.ok (some mapA2)
    ∧ mapA.hash ≠ mapA2.hash := by decide

/-- C4 amended: the cache entry for the folder basename is written by the
scan pipeline (getMaps) right after a successful load, not by
loadMapInfoFromPath itself; once that scan step has run, a subsequent
load of the same folder name hits the cache and returns the cached
manifest and hash, independent of the filesystem state (no file reads). -/
theorem c4_cache_roundtrip (env : Env) (fs : FSState) (total : Nat) (acc : ScanAcc)
    (mapPath : String) (m : LoadedMap)
    (hload : loadMapInfoFromPath env fs acc.cache mapPath = Except.ok (some m)) :
    cacheGet (scanStep env fs total acc mapPath).cache (basename mapPath) =
      some ⟨m.mapInfo, m.hash⟩
    ∧ ∀ fs2 : FSState,
        loadMapInfoFromPath env fs2 (scanStep env fs total acc mapPath).cache mapPath =
          Except.ok (some (getUrlsAndReturn env m.mapInfo m.hash mapPath)) := by
  have hstep : (scanStep env fs total acc mapPath).cache =
      cacheSet acc.cache (basename mapPath) ⟨m.mapInfo, m.hash⟩ := by
    simp [scanStep, hload]
  have hget : cacheGet (cacheSet acc.cache (basename mapPath) ⟨m.mapInfo, m.hash⟩)
      (basename mapPath) = some ⟨m.mapInfo, m.hash⟩ := by
    simp [cacheGet, cacheSet]
  refine ⟨by rw [hstep]; exact hget, ?_⟩
  intro fs2
  rw [hstep]
  simp [loadMapInfoFromPath, hget]

/-- Witness for C4 amended: after the scan step over maps/A the cache
holds the entry for basename A, and a load of maps/A against a filesystem
that does not even contain that folder still succeeds from the cache. -/
theorem c4_witness :
    cacheGet (scanStep envT fsA 1 ⟨[], 0, [], []⟩ "maps/A").cache (basename "maps/A") =
      some ⟨infoA, hashA⟩
    ∧ loadMapInfoFromPath envT fsNoInfo (scanStep envT fsA 1 ⟨[], 0, [], []⟩ "maps/A").cache
        "maps/A" = Except.ok (some (getUrlsAndReturn envT infoA hashA "maps/A")) :=
  ⟨(c4_cache_roundtrip envT fsA 1 ⟨[], 0, [], []⟩ "maps/A" mapA (by decide)).1,
   (c4_cache_roundtrip envT fsA 1 ⟨[], 0, [], []⟩ "maps/A" mapA (by decide)).2 fsNoInfo⟩

/-- Helper: the planned total is the sum, over all input archives, of the
number of matched manifest entries (zero for an unreadable archive). -/
theorem planZips_total (zipRead : String → Option ZipFile) :
    ∀ zipPaths : List String,
      (planZips zipRead zipPaths).2 =
        (zipPaths.map (fun zp =>
          match zipRead zp with
          | none => 0
          | some z => (matchedInfoFiles z).length)).sum
  | [] => rfl
  | zp :: rest => by
    have ih := planZips_total zipRead rest
    cases hz : zipRead zp with
    | none => simp [planZips, hz, ih]
    | some z =>
      cases hp : planOfZip zp z with
      | none =>
        have hlen : (matchedInfoFiles z).length = 0 := by
          by_cases hc : (matchedInfoFiles z).length = 0
          · exact hc
          · simp [planOfZip, hc] at hp
        simp [planZips, hz, hp, ih, hlen]
      | some pe => simp [planZips, hz, hp, ih, Nat.add_comm]

/-- C5: the import fails with NoAssetsFoundError exactly when zero
archives across the whole input yield any matched manifest entry; when at
least one archive contains a matched manifest the call runs to completion
(archives without one were merely skipped during planning). -/
theorem c5_noAssetsFound_iff (env : Env) (zipRead : String → Option ZipFile) (fs : FSState)
    (cache : Cache) (zipPaths : List String) (mapsFolder : String) :
    (handleZipPaths env zipRead fs cache zipPaths mapsFolder =
        Except.error ImportError.noAssetsFound
      ↔ (zipPaths.map (fun zp =>
          match zipRead zp with
          | none => 0
          | some z => (matchedInfoFiles z).length)).sum = 0)
    ∧ ((zipPaths.map (fun zp =>
          match zipRead zp with
          | none => 0
          | some z => (matchedInfoFiles z).length)).sum ≠ 0 →
        ∃ out, handleZipPaths env zipRead fs cache zipPaths mapsFolder = Except.ok out) := by
  rw [← planZips_total]
  unfold handleZipPaths
  by_cases h : (planZips zipRead zipPaths).2 = 0 <;> simp [h]

/-- Witness for C5: one archive with a root manifest gives a nonzero
matched total and the import call succeeds. -/
theorem c5_witness :
    (List.map (fun zp =>
        match zipReadT zp with
        | none => 0
        | some z => (matchedInfoFiles z).length) ["downloads/MyMap.zip"]).sum ≠ 0
    ∧ ∃ out, handleZipPaths envT zipReadT fsRootOnly [] ["downloads/MyMap.zip"] "maps" =
        Except.ok out :=
  ⟨by decide,
   (c5_noAssetsFound_iff envT zipReadT fsRootOnly [] ["downloads/MyMap.zip"] "maps").2
     (by decide)⟩

/-- Helper and C7 content: over the folders of a multi-map archive, one
snapshot is emitted per unit, the counter advances by one per unit
(failed units included), and the result slot of each snapshot is exactly the
Option view of the import result of that unit (empty on failure). -/
theorem importMultiUnits_spec (env : Env) (zip : ZipFile) (mapsFolder : String)
    (cache : Cache) (total : Nat) :
    ∀ (folders : List String) (fs : FSState) (cur : Nat),
      (importMultiUnits env zip mapsFolder cache total folders fs cur).snaps.length =
        folders.length
      ∧ (importMultiUnits env zip mapsFolder cache total folders fs cur).snaps.map
          (fun s => s.current) = List.range' (cur + 1) folders.length
      ∧ (importMultiUnits env zip mapsFolder cache total folders fs cur).snaps.map
          (fun s => s.data) =
        (importMultiUnits env zip mapsFolder cache total folders fs cur).results.map
          Except.toOption
      ∧ (importMultiUnits env zip mapsFolder cache total folders fs cur).results.length =
        folders.length
  | [], fs, cur => by simp [importMultiUnits]
  | rf :: rest, fs, cur => by
    have ih := importMultiUnits_spec env zip mapsFolder cache total rest
      (importMap env zip rf (basename rf) mapsFolder fs cache).2 (cur + 1)
    simp [importMultiUnits, List.range', ih.1, ih.2.1, ih.2.2.1, ih.2.2.2]

/-- C7: a failure in one unit of a multi-asset archive does not abort the
remaining units: every folder of the archive yields exactly one emitted
snapshot, the counter advances for the failed unit as for the others, and
the result slot of the failed unit is left empty (the data field of the
snapshot is the Option view of the result of the unit, none exactly on failure). -/
theorem c7_unit_failure_isolated (env : Env) (zip : ZipFile) (mapsFolder : String)
    (cache : Cache) (total : Nat) (folders : List String) (fs : FSState) (cur : Nat) :
    (importMultiUnits env zip mapsFolder cache total folders fs cur).snaps.length =
      folders.length
    ∧ (importMultiUnits env zip mapsFolder cache total folders fs cur).snaps.map
        (fun s => s.current) = List.range' (cur + 1) folders.length
    ∧ (importMultiUnits env zip mapsFolder cache total folders fs cur).snaps.map
        (fun s => s.data) =
      (importMultiUnits env zip mapsFolder cache total folders fs cur).results.map
        Except.toOption
    ∧ (importMultiUnits env zip mapsFolder cache total folders fs cur).results.length =
      folders.length :=
  importMultiUnits_spec env zip mapsFolder cache total folders fs cur

/-- C10: when the resolved levels folder does not exist on disk, the scan
completes its stream without emitting any snapshot at all (no per-folder
update and no final result snapshot) and leaves the cache untouched; the
model has no failure outcome on this path, matching the early
observer.complete() in the code. -/
theorem c10_scan_missing_folder (env : Env) (fs : FSState) (cache : Cache)
    (levelsFolder : String) (h : fs.pathExists levelsFolder = false) :
    getMapsModel env fs cache levelsFolder = ([], cache) := by
  simp [getMapsModel, h]

/-- Witness for C10: a folder absent from the concrete filesystem. -/
theorem c10_witness :
    fsA.pathExists "steam/CustomLevels" = false
    ∧ getMapsModel envT fsA [] "steam/CustomLevels" = ([], []) :=
  ⟨by decide, c10_scan_missing_folder envT fsA [] "steam/CustomLevels" (by decide)⟩

/-- Helper: filtering a list cannot make an any-test true. -/
theorem any_filter_false {α : Type} (p q : α → Bool) (l : List α) (h : l.any q = false) :
    (l.filter p).any q = false := by
  simp only [List.any_eq_false] at h ⊢
  intro x hx
  exact h x (List.mem_filter.mp hx).1

/-- Helper: a path that does not exist still does not exist after any
recursive folder deletion. -/
theorem pathExists_false_deleteFolder (fs : FSState) (q x : String)
    (h : fs.pathExists x = false) : (fs.deleteFolder q).pathExists x = false := by
  simp only [FSState.pathExists, Bool.or_eq_false_iff] at h
  simp only [FSState.deleteFolder, FSState.pathExists, Bool.or_eq_false_iff]
  exact ⟨any_filter_false _ _ _ h.1, any_filter_false _ _ _ h.2⟩

/-- Helper: deleting a folder removes it from the filesystem. -/
theorem deleteFolder_self_not_exists (fs : FSState) (q : String) :
    (fs.deleteFolder q).pathExists q = false := by
  simp only [FSState.deleteFolder, FSState.pathExists, Bool.or_eq_false_iff]
  constructor
  · simp only [List.any_eq_false]
    intro x hx
    have hpred := (List.mem_filter.mp hx).2
    simp only [Bool.not_eq_true', Bool.or_eq_false_iff] at hpred
    simp [hpred.1]
  · simp only [List.any_eq_false]
    intro x hx
    have hpred := (List.mem_filter.mp hx).2
    simp only [Bool.not_eq_true', Bool.or_eq_false_iff] at hpred
    simp [hpred.1]

/-- Helper: a directory distinct from and not inside the deleted folder
survives the deletion. -/
theorem deleteFolder_mem_dirs (fs : FSState) (q x : String) (hne : x ≠ q)
    (hun : isUnder q x = false) (hx : x ∈ fs.dirs) : x ∈ (fs.deleteFolder q).dirs := by
  simp only [FSState.deleteFolder, List.mem_filter]
  refine ⟨hx, ?_⟩
  simp [Bool.not_eq_true', Bool.or_eq_false_iff, hun, hne]

/-- Helper: an absent cache key stays absent after any eviction. -/
theorem cacheGet_delete_none (c : Cache) (j k : String) (h : cacheGet c k = none) :
    cacheGet (cacheDelete c j) k = none := by
  simp only [cacheGet, Option.map_eq_none', List.find?_eq_none, cacheDelete] at h ⊢
  intro x hx
  exact h x (List.mem_filter.mp hx).1

/-- Helper: eviction removes the evicted key. -/
theorem cacheGet_delete_self (c : Cache) (k : String) :
    cacheGet (cacheDelete c k) k = none := by
  simp only [cacheGet, Option.map_eq_none', List.find?_eq_none, cacheDelete]
  intro x hx
  have hpred := (List.mem_filter.mp hx).2
  simp only [Bool.not_eq_true'] at hpred
  simp [hpred]

/-- Helper: the delete-by-hash loop never resurrects a removed path. -/
theorem delH_pathExists_mono (env : Env) (hashs : List String) (total : Nat) :
    ∀ (l : List String) (fs : FSState) (c : Cache) (cur : Nat) (x : String),
      fs.pathExists x = false →
      (deleteFromHashsLoop env hashs total l fs c cur).fs.pathExists x = false
  | [], _, _, _, _, h => h
  | p :: rest, fs, c, cur, x, h => by
    by_cases hh : delHit env hashs fs c p = true
    · simp only [deleteFromHashsLoop, hh, if_true]
      exact delH_pathExists_mono env hashs total rest _ _ _ x
        (pathExists_false_deleteFolder fs p x h)
    · simp only [deleteFromHashsLoop, hh, if_false]
      exact delH_pathExists_mono env hashs total rest _ _ _ x h

/-- Helper: the delete-by-hash loop never re-adds an absent cache key. -/
theorem delH_cacheGet_mono (env : Env) (hashs : List String) (total : Nat) :
    ∀ (l : List String) (fs : FSState) (c : Cache) (cur : Nat) (k : String),
      cacheGet c k = none →
      cacheGet (deleteFromHashsLoop env hashs total l fs c cur).cache k = none
  | [], _, _, _, _, h => h
  | p :: rest, fs, c, cur, k, h => by
    by_cases hh : delHit env hashs fs c p = true
    · simp only [deleteFromHashsLoop, hh, if_true]
      exact delH_cacheGet_mono env hashs total rest _ _ _ k
        (cacheGet_delete_none c (basename p) k h)
    · simp only [deleteFromHashsLoop, hh, if_false]
      exact delH_cacheGet_mono env hashs total rest _ _ _ k h

/-- Helper: a directory separate from every processed folder survives the
delete-by-hash loop. -/
theorem delH_dirs_preserved (env : Env) (hashs : List String) (total : Nat) :
    ∀ (l : List String) (fs : FSState) (c : Cache) (cur : Nat) (x : String),
      (∀ q ∈ l, x ≠ q ∧ isUnder q x = false) → x ∈ fs.dirs →
      x ∈ (deleteFromHashsLoop env hashs total l fs c cur).fs.dirs
  | [], _, _, _, _, _, hx => hx
  | p :: rest, fs, c, cur, x, hsep, hx => by
    have hrest : ∀ q ∈ rest, x ≠ q ∧ isUnder q x = false :=
      fun q hq => hsep q (List.mem_cons_of_mem p hq)
    by_cases hh : delHit env hashs fs c p = true
    · simp only [deleteFromHashsLoop, hh, if_true]
      have hp := hsep p (List.mem_cons_self p rest)
      exact delH_dirs_preserved env hashs total rest _ _ _ x hrest
        (deleteFolder_mem_dirs fs p x hp.1 hp.2 hx)
    · simp only [deleteFromHashsLoop, hh, if_false]
      exact delH_dirs_preserved env hashs total rest _ _ _ x hrest hx

/-- Helper: snapshot count, constant total, final counter and snapshot
monotonicity of the delete-by-hash loop. -/
theorem delH_core (env : Env) (hashs : List String) (total : Nat) :
    ∀ (l : List String) (fs : FSState) (c : Cache) (cur : Nat),
      (deleteFromHashsLoop env hashs total l fs c cur).snaps.length = l.length
      ∧ (∀ s ∈ (deleteFromHashsLoop env hashs total l fs c cur).snaps,
          s.total = total ∧ cur ≤ s.current)
      ∧ (deleteFromHashsLoop env hashs total l fs c cur).finalCur =
          cur + (deleteFromHashsLoop env hashs total l fs c cur).matched.length
      ∧ List.Chain' progRel (deleteFromHashsLoop env hashs total l fs c cur).snaps
  | [], fs, c, cur => by simp [deleteFromHashsLoop]
  | p :: rest, fs, c, cur => by
    by_cases hh : delHit env hashs fs c p = true
    · have ih := delH_core env hashs total rest (fs.deleteFolder p)
        (cacheDelete c (basename p)) (cur + 1)
      simp only [deleteFromHashsLoop, hh, if_true, List.length_cons]
      refine ⟨by rw [ih.1], ?_, ?_, ?_⟩
      · intro s hs
        rcases List.mem_cons.mp hs with h | h
        · subst h; exact ⟨rfl, Nat.le_succ cur⟩
        · have hts := ih.2.1 s h
          exact ⟨hts.1, Nat.le_trans (Nat.le_succ cur) hts.2⟩
      · rw [ih.2.2.1]; omega
      · rw [List.chain'_cons']
        refine ⟨?_, ih.2.2.2⟩
        intro y hy
        have hts := ih.2.1 y (List.mem_of_mem_head? hy)
        exact ⟨Nat.le_of_eq hts.1.symm, hts.2⟩
    · have ih := delH_core env hashs total rest fs c cur
      have hstep : deleteFromHashsLoop env hashs total (p :: rest) fs c cur =
          ⟨⟨total, cur⟩ :: (deleteFromHashsLoop env hashs total rest fs c cur).snaps,
            (deleteFromHashsLoop env hashs total rest fs c cur).fs,
            (deleteFromHashsLoop env hashs total rest fs c cur).cache,
            (deleteFromHashsLoop env hashs total rest fs c cur).matched,
            (deleteFromHashsLoop env hashs total rest fs c cur).finalCur⟩ := by
        simp [deleteFromHashsLoop, hh]
      rw [hstep]
      refine ⟨by simp [ih.1], ?_, ?_, ?_⟩
      · intro s hs
        rcases List.mem_cons.mp hs with h | h
        · subst h; exact ⟨rfl, Nat.le_refl cur⟩
        · exact ih.2.1 s h
      · exact ih.2.2.1
      · show List.Chain' progRel
          (⟨total, cur⟩ :: (deleteFromHashsLoop env hashs total rest fs c cur).snaps)
        rw [List.chain'_cons']
        refine ⟨?_, ih.2.2.2⟩
        intro y hy
        have hts := ih.2.1 y (List.mem_of_mem_head? hy)
        exact ⟨Nat.le_of_eq hts.1.symm, hts.2⟩

/-- Helper: every matched folder of the delete-by-hash loop is absent
from the final filesystem and evicted from the final cache. -/
theorem delH_removed (env : Env) (hashs : List String) (total : Nat) :
    ∀ (l : List String) (fs : FSState) (c : Cache) (cur : Nat),
      ∀ p ∈ (deleteFromHashsLoop env hashs total l fs c cur).matched,
        (deleteFromHashsLoop env hashs total l fs c cur).fs.pathExists p = false
        ∧ cacheGet (deleteFromHashsLoop env hashs total l fs c cur).cache (basename p) = none
  | [], fs, c, cur => by simp [deleteFromHashsLoop]
  | q :: rest, fs, c, cur => by
    by_cases hh : delHit env hashs fs c q = true
    · intro p hp
      simp only [deleteFromHashsLoop, hh, if_true] at hp ⊢
      rcases List.mem_cons.mp hp with h | h
      · subst h
        refine ⟨?_, ?_⟩
        · exact delH_pathExists_mono env hashs total rest _ _ _ p
            (deleteFolder_self_not_exists fs p)
        · exact delH_cacheGet_mono env hashs total rest _ _ _ (basename p)
            (cacheGet_delete_self c (basename p))
      · exact delH_removed env hashs total rest _ _ _ p h
    · intro p hp
      simp only [deleteFromHashsLoop, hh, if_false] at hp ⊢
      exact delH_removed env hashs total rest _ _ _ p hp

/-- Helper: a processed folder that did not match survives the
delete-by-hash loop, provided the processed folders are pairwise
separate (as direct children of one folder always are). -/
theorem delH_unmatched_kept (env : Env) (hashs : List String) (total : Nat) :
    ∀ (l : List String) (fs : FSState) (c : Cache) (cur : Nat),
      l.Pairwise separate →
      ∀ p ∈ l, p ∉ (deleteFromHashsLoop env hashs total l fs c cur).matched →
        p ∈ fs.dirs → p ∈ (deleteFromHashsLoop env hashs total l fs c cur).fs.dirs
  | [], fs, c, cur => by simp
  | q :: rest, fs, c, cur => by
    intro hpw p hp hnm hfs
    have hpw' := List.pairwise_cons.mp hpw
    by_cases hh : delHit env hashs fs c q = true
    · simp only [deleteFromHashsLoop, hh, if_true] at hnm ⊢
      have hpq : p ≠ q := fun he => hnm (he ▸ List.mem_cons_self _ _)
      rcases List.mem_cons.mp hp with he | hrest
      · exact absurd he hpq
      · have hsepq := hpw'.1 p hrest
        have hout : p ∉ (deleteFromHashsLoop env hashs total rest (fs.deleteFolder q)
            (cacheDelete c (basename q)) (cur + 1)).matched :=
          fun hm => hnm (List.mem_cons_of_mem q hm)
        exact delH_unmatched_kept env hashs total rest _ _ _ hpw'.2 p hrest hout
          (deleteFolder_mem_dirs fs q p hpq hsepq.2.1 hfs)
    · simp only [deleteFromHashsLoop, hh, if_false] at hnm ⊢
      rcases List.mem_cons.mp hp with he | hrest
      · subst he
        exact delH_dirs_preserved env hashs total rest fs c cur p
          (fun r hr => ⟨(hpw'.1 r hr).1, (hpw'.1 r hr).2.2⟩) hfs
      · exact delH_unmatched_kept env hashs total rest _ _ _ hpw'.2 p hrest hnm hfs

/-- C6 counterexample: with two requested hashes of which exactly one
matches an installed folder, the code pushes one progress update per
installed folder (here one), not one per requested hash, and the final
counter is the number of matched folders (1), not the requested total
(2), contradicting the claim that current reaches total. -/
theorem c6_counterexample :
    (deleteMapsFromHashsModel envT fsA [] "maps" hashsC6).snaps = [⟨2, 1⟩]
    ∧ (deleteMapsFromHashsModel envT fsA [] "maps" hashsC6).snaps.length ≠ hashsC6.length
    ∧ (deleteMapsFromHashsModel envT fsA [] "maps" hashsC6).finalCur ≠ hashsC6.length := by
  decide

/-- C6 amended: deleteMapsFromHashs iterates over the installed folders,
pushing one progress update per installed folder (not per requested
hash); the total field of every snapshot is the number of requested hashes; the
final counter equals the number of matched folders (not the total);
exactly the folders whose loaded hash is in the requested set are removed
from disk and evicted from the cache, and the unmatched installed folders
are left in place. -/
theorem c6_delete_by_hash (env : Env) (fs : FSState) (cache : Cache) (root : String)
    (hashs : List String) (hsep : (fs.foldersIn root).Pairwise separate) :
    (deleteMapsFromHashsModel env fs cache root hashs).snaps.length =
      (fs.foldersIn root).length
    ∧ (∀ s ∈ (deleteMapsFromHashsModel env fs cache root hashs).snaps,
        s.total = hashs.length)
    ∧ (deleteMapsFromHashsModel env fs cache root hashs).finalCur =
        (deleteMapsFromHashsModel env fs cache root hashs).matched.length
    ∧ (∀ p ∈ (deleteMapsFromHashsModel env fs cache root hashs).matched,
        (deleteMapsFromHashsModel env fs cache root hashs).fs.pathExists p = false
        ∧ cacheGet (deleteMapsFromHashsModel env fs cache root hashs).cache (basename p) =
          none)
    ∧ (∀ p ∈ fs.foldersIn root,
        p ∉ (deleteMapsFromHashsModel env fs cache root hashs).matched →
        p ∈ (deleteMapsFromHashsModel env fs cache root hashs).fs.dirs) := by
  have hcore := delH_core env hashs hashs.length (fs.foldersIn root) fs cache 0
  refine ⟨hcore.1, fun s hs => (hcore.2.1 s hs).1, ?_, ?_, ?_⟩
  · have := hcore.2.2.1
    simpa [deleteMapsFromHashsModel] using this
  · exact delH_removed env hashs hashs.length (fs.foldersIn root) fs cache 0
  · intro p hp hnm
    exact delH_unmatched_kept env hashs hashs.length (fs.foldersIn root) fs cache 0 hsep p hp
      hnm (List.mem_filter.mp hp).1

/-- Witness for C6 amended: two requested hashes, two installed folders,
one match: two updates (one per folder), final counter 1, the matched
folder maps/A gone, the unmatched folder maps/B kept. -/
theorem c6_witness :
    (fsAB.foldersIn "maps").Pairwise separate
    ∧ (deleteMapsFromHashsModel envT fsAB [] "maps" hashsC6).snaps.length =
        (fsAB.foldersIn "maps").length
    ∧ (deleteMapsFromHashsModel envT fsAB [] "maps" hashsC6).finalCur =
        (deleteMapsFromHashsModel envT fsAB [] "maps" hashsC6).matched.length
    ∧ (deleteMapsFromHashsModel envT fsAB [] "maps" hashsC6).fs.pathExists "maps/A" = false
    ∧ "maps/B" ∈ (deleteMapsFromHashsModel envT fsAB [] "maps" hashsC6).fs.dirs :=
  ⟨by decide,
   (c6_delete_by_hash envT fsAB [] "maps" hashsC6 (by decide)).1,
   (c6_delete_by_hash envT fsAB [] "maps" hashsC6 (by decide)).2.2.1,
   ((c6_delete_by_hash envT fsAB [] "maps" hashsC6 (by decide)).2.2.2.1 "maps/A"
     (by decide)).1,
   (c6_delete_by_hash envT fsAB [] "maps" hashsC6 (by decide)).2.2.2.2 "maps/B"
     (by decide) (by decide)⟩

/-- Helper: any record the load path returns carries the loaded folder
path. -/
theorem load_path (env : Env) (fs : FSState) (c : Cache) (p : String) (m : LoadedMap)
    (h : loadMapInfoFromPath env fs c p = Except.ok (some m)) : m.path = p := by
  simp only [loadMapInfoFromPath] at h
  split at h
  · rw [Except.ok.injEq, Option.some.injEq] at h
    subst h; rfl
  · split at h
    · simp at h
    · split at h
      · simp at h
      · split at h
        · simp at h
        · split at h
          · simp at h
          · rw [Except.ok.injEq, Option.some.injEq] at h
            subst h; rfl

/-- Helper: a successful try block of importMap returns a record rooted
at the destination folder mapsFolder/mapName. -/
theorem importMapTry_ok_path (env : Env) (zip : ZipFile) (rf mapName mapsFolder : String)
    (fs : FSState) (c : Cache) (m : LoadedMap) (fsOut : FSState)
    (h : importMapTry env zip rf mapName mapsFolder fs c = (Except.ok m, fsOut)) :
    m.path = pathJoin mapsFolder mapName := by
  simp only [importMapTry] at h
  split at h
  · simp at h
  · split at h
    · simp at h
    · simp at h
    · rename_i m0 hload
      rw [Prod.mk.injEq, Except.ok.injEq] at h
      obtain ⟨h1, _⟩ := h
      subst h1
      exact load_path env _ c _ m0 hload

/-- Helper: a successful importMap returns a record rooted at the
destination folder. -/
theorem importMap_ok_path (env : Env) (zip : ZipFile) (rf mapName mapsFolder : String)
    (fs : FSState) (c : Cache) (m : LoadedMap) (fsOut : FSState)
    (h : importMap env zip rf mapName mapsFolder fs c = (Except.ok m, fsOut)) :
    m.path = pathJoin mapsFolder mapName := by
  simp only [importMap] at h
  split at h
  · rename_i m0 fsOut0 heq
    rw [Prod.mk.injEq, Except.ok.injEq] at h
    obtain ⟨h1, _⟩ := h
    subst h1
    exact importMapTry_ok_path env zip rf mapName mapsFolder fs c m0 fsOut0 heq
  · split at h
    · simp at h
    · split at h
      · simp at h
      · simp at h

/-- Helper: a successful result slot at position i of the multi-map loop
is rooted at mapsFolder/basename of the i-th folder. -/
theorem importMultiUnits_paths (env : Env) (zip : ZipFile) (mapsFolder : String)
    (cache : Cache) (total : Nat) :
    ∀ (folders : List String) (fs : FSState) (cur : Nat) (i : Nat) (m : LoadedMap)
      (f : String),
      (importMultiUnits env zip mapsFolder cache total folders fs cur).results.get? i =
        some (Except.ok m) →
      folders.get? i = some f →
      m.path = pathJoin mapsFolder (basename f)
  | [], _, _, i, m, f, h1, _ => by simp [importMultiUnits] at h1
  | rf :: rest, fs, cur, i, m, f, h1, h2 => by
    cases i with
    | zero =>
      simp only [importMultiUnits, List.get?] at h1 h2
      rw [Option.some.injEq] at h1 h2
      subst h2
      have hp : importMap env zip rf (basename rf) mapsFolder fs cache =
          (Except.ok m, (importMap env zip rf (basename rf) mapsFolder fs cache).2) := by
        rw [← h1]
      exact importMap_ok_path env zip rf (basename rf) mapsFolder fs cache m _ hp
    | succ j =>
      simp only [importMultiUnits, List.get?] at h1 h2
      exact importMultiUnits_paths env zip mapsFolder cache total rest _ _ j m f h1 h2

/-- C8: an archive is planned single-asset exactly when none of its
matched manifest names contains a path separator; the destination folder
of a single-asset unit is the archive basename without the .zip
extension, and of a multi-asset unit the innermost folder of the matched
manifest path; concretely, importing downloads/MyMap.zip with a root
manifest yields one record whose folder path maps/MyMap ends in MyMap,
with a non-empty hash. -/
theorem c8_classification_and_naming :
    (∀ (zp : String) (z : ZipFile) (pe : ZipPlanEntry), planOfZip zp z = some pe →
      (pe.single = true ↔ ∀ e ∈ matchedInfoFiles z, e.name.data.contains '/' = false))
    ∧ (∀ (env : Env) (zipRead : String → Option ZipFile) (mapsFolder : String)
        (cache : Cache) (total : Nat) (pe : ZipPlanEntry) (fs : FSState) (cur : Nat)
        (z : ZipFile) (m : LoadedMap),
        zipRead pe.path = some z → pe.single = true →
        (processZip env zipRead mapsFolder cache total pe fs cur).1.map (fun s => s.data) =
          [some m] →
        m.path = pathJoin mapsFolder (basenameExt pe.path ".zip"))
    ∧ (∀ (env : Env) (zip : ZipFile) (mapsFolder : String) (cache : Cache) (total : Nat)
        (folders : List String) (fs : FSState) (cur : Nat) (i : Nat) (m : LoadedMap)
        (f : String),
        (importMultiUnits env zip mapsFolder cache total folders fs cur).results.get? i =
          some (Except.ok m) →
        folders.get? i = some f →
        m.path = pathJoin mapsFolder (basename f))
    ∧ ((importSnapshots envT zipReadT fsRootOnly [] ["downloads/MyMap.zip"] "maps").map
        (fun s => (s.current, s.data.map (fun m => (m.path, m.hash)))) =
        [(0, none), (1, some ("maps/MyMap", hashA))]
      ∧ List.isSuffixOf "MyMap".data "maps/MyMap".data = true ∧ hashA ≠ "") := by
  refine ⟨?_, ?_, ?_, by decide⟩
  · intro zp z pe hp
    simp only [planOfZip] at hp
    split at hp
    · simp at hp
    · rw [Option.some.injEq] at hp
      subst hp
      simp only [Option.isNone_iff_eq_none, List.find?_eq_none, Bool.not_eq_true']
      constructor
      · intro h e he
        simpa using h e he
      · intro h e he
        simpa using h e he
  · intro env zipRead mapsFolder cache total pe fs cur z m hz hsingle hmap
    simp only [processZip, hz, hsingle, if_true, List.map_cons, List.map_nil] at hmap
    rw [List.cons.injEq] at hmap
    have h1 := hmap.1
    cases hr1 : (importMap env z "" (basenameExt pe.path ".zip") mapsFolder fs cache).1 with
    | error e => rw [hr1] at h1; simp [Except.toOption] at h1
    | ok m0 =>
      rw [hr1] at h1
      simp only [Except.toOption, Option.some.injEq] at h1
      subst h1
      have hp : importMap env z "" (basenameExt pe.path ".zip") mapsFolder fs cache =
          (Except.ok m0, (importMap env z "" (basenameExt pe.path ".zip") mapsFolder fs cache).2) := by
        rw [← hr1]
      exact importMap_ok_path env z "" (basenameExt pe.path ".zip") mapsFolder fs cache m0 _ hp
  · intro env zip mapsFolder cache total folders fs cur i m f h1 h2
    exact importMultiUnits_paths env zip mapsFolder cache total folders fs cur i m f h1 h2

/-- Witness for C8: the concrete single-asset plan of MyMap.zip and its
destination record path at maps slash archive-basename. -/
theorem c8_witness :
    zipReadT "downloads/MyMap.zip" = some zipMyMap
    ∧ (⟨"downloads/MyMap.zip", true, ["."]⟩ : ZipPlanEntry).single = true
    ∧ mapMyMap.path = pathJoin "maps" (basenameExt "downloads/MyMap.zip" ".zip") :=
  ⟨by decide, by decide,
   (c8_classification_and_naming).2.1 envT zipReadT "maps" [] 1
     ⟨"downloads/MyMap.zip", true, ["."]⟩ fsRootOnly 0 zipMyMap mapMyMap
     (by decide) (by decide) (by decide)⟩

/-- Helper: one scan step preserves snapshot monotonicity and bounds. -/
theorem scanStep_inv (env : Env) (fs : FSState) (total : Nat) (acc : ScanAcc)
    (mapPath : String)
    (hch : List.Chain' scanRel acc.snaps)
    (hbd : ∀ s ∈ acc.snaps, s.total ≤ total ∧ s.loaded ≤ acc.loaded) :
    List.Chain' scanRel (scanStep env fs total acc mapPath).snaps
    ∧ ∀ s ∈ (scanStep env fs total acc mapPath).snaps,
        s.total ≤ total ∧ s.loaded ≤ (scanStep env fs total acc mapPath).loaded := by
  cases hload : loadMapInfoFromPath env fs acc.cache mapPath with
  | error e => simp only [scanStep, hload]; exact ⟨hch, hbd⟩
  | ok o =>
    cases o with
    | none => simp only [scanStep, hload]; exact ⟨hch, hbd⟩
    | some m =>
      simp only [scanStep, hload]
      constructor
      · rw [List.chain'_append]
        refine ⟨hch, List.chain'_singleton _, ?_⟩
        intro x hx y hy
        simp only [List.head?_cons, Option.mem_def, Option.some.injEq] at hy
        subst hy
        have hb := hbd x (List.mem_of_mem_getLast? hx)
        exact ⟨hb.1, Nat.le_trans hb.2 (Nat.le_succ _)⟩
      · intro s hs
        rcases List.mem_append.mp hs with h | h
        · have hb := hbd s h
          exact ⟨hb.1, Nat.le_trans hb.2 (Nat.le_succ _)⟩
        · simp only [List.mem_singleton] at h
          subst h
          exact ⟨Nat.le_refl total, Nat.le_refl _⟩

/-- Helper: folding scan steps over one chunk preserves the invariant. -/
theorem scanFoldChunk_inv (env : Env) (fs : FSState) (total : Nat) :
    ∀ (chunk : List String) (acc : ScanAcc),
      List.Chain' scanRel acc.snaps →
      (∀ s ∈ acc.snaps, s.total ≤ total ∧ s.loaded ≤ acc.loaded) →
      List.Chain' scanRel (chunk.foldl (scanStep env fs total) acc).snaps
      ∧ ∀ s ∈ (chunk.foldl (scanStep env fs total) acc).snaps,
          s.total ≤ total ∧ s.loaded ≤ (chunk.foldl (scanStep env fs total) acc).loaded
  | [], _, hch, hbd => ⟨hch, hbd⟩
  | p :: rest, acc, hch, hbd => by
    have hstep := scanStep_inv env fs total acc p hch hbd
    simpa [List.foldl_cons] using
      scanFoldChunk_inv env fs total rest (scanStep env fs total acc p) hstep.1 hstep.2

/-- Helper: folding over all chunks preserves the invariant. -/
theorem scanFoldChunks_inv (env : Env) (fs : FSState) (total : Nat) :
    ∀ (chunks : List (List String)) (acc : ScanAcc),
      List.Chain' scanRel acc.snaps →
      (∀ s ∈ acc.snaps, s.total ≤ total ∧ s.loaded ≤ acc.loaded) →
      List.Chain' scanRel
        (chunks.foldl (fun a chunk => chunk.foldl (scanStep env fs total) a) acc).snaps
      ∧ ∀ s ∈ (chunks.foldl (fun a chunk => chunk.foldl (scanStep env fs total) a) acc).snaps,
          s.total ≤ total
          ∧ s.loaded ≤
            (chunks.foldl (fun a chunk => chunk.foldl (scanStep env fs total) a) acc).loaded
  | [], _, hch, hbd => ⟨hch, hbd⟩
  | chunk :: rest, acc, hch, hbd => by
    have hstep := scanFoldChunk_inv env fs total chunk acc hch hbd
    simpa [List.foldl_cons] using
      scanFoldChunks_inv env fs total rest (chunk.foldl (scanStep env fs total) acc)
        hstep.1 hstep.2

/-- Helper: the scan emission list is monotone. -/
theorem getMaps_chain (env : Env) (fs : FSState) (cache : Cache) (levelsFolder : String) :
    List.Chain' scanRel (getMapsModel env fs cache levelsFolder).1 := by
  by_cases h : fs.pathExists levelsFolder = true
  · have hacc := scanFoldChunks_inv env fs (fs.foldersIn levelsFolder).length
      (splitIntoChunk (fs.foldersIn levelsFolder) 50) ⟨cache, 0, [], []⟩
      List.chain'_nil (by simp)
    have hstep : (getMapsModel env fs cache levelsFolder).1 =
        ((splitIntoChunk (fs.foldersIn levelsFolder) 50).foldl
          (fun (a : ScanAcc) (chunk : List String) =>
            chunk.foldl (scanStep env fs (fs.foldersIn levelsFolder).length) a)
          ⟨cache, 0, [], []⟩).snaps ++
        [⟨(fs.foldersIn levelsFolder).length,
          ((splitIntoChunk (fs.foldersIn levelsFolder) 50).foldl
            (fun (a : ScanAcc) (chunk : List String) =>
              chunk.foldl (scanStep env fs (fs.foldersIn levelsFolder).length) a)
            ⟨cache, 0, [], []⟩).loaded,
          ((splitIntoChunk (fs.foldersIn levelsFolder) 50).foldl
            (fun (a : ScanAcc) (chunk : List String) =>
              chunk.foldl (scanStep env fs (fs.foldersIn levelsFolder).length) a)
            ⟨cache, 0, [], []⟩).maps⟩] := by
      simp [getMapsModel, h]
    rw [hstep, List.chain'_append]
    refine ⟨hacc.1, List.chain'_singleton _, ?_⟩
    intro x hx y hy
    simp only [List.head?_cons, Option.mem_def, Option.some.injEq] at hy
    subst hy
    have hb := hacc.2 x (List.mem_of_mem_getLast? hx)
    exact ⟨hb.1, hb.2⟩
  · have hstep : (getMapsModel env fs cache levelsFolder).1 = [] := by
      simp [getMapsModel, h]
    rw [hstep]
    exact List.chain'_nil

/-- Helper: delete-by-list snapshots are monotone with constant total. -/
theorem deleteMapsLoop_mono (total : Nat) :
    ∀ (l : List String) (fs : FSState) (c : Cache) (del : Nat),
      List.Chain' delRel (deleteMapsLoop total l fs c del).1
      ∧ ∀ s ∈ (deleteMapsLoop total l fs c del).1, s.total = total ∧ del ≤ s.deleted
  | [], fs, c, del => by simp [deleteMapsLoop]
  | p :: rest, fs, c, del => by
    by_cases hex : fs.pathExists p = true
    · have ih := deleteMapsLoop_mono total rest (fs.deleteFolder p)
        (cacheDelete c (basename p)) (del + 1)
      have hstep : (deleteMapsLoop total (p :: rest) fs c del).1 =
          ⟨total, del + 1⟩ :: (deleteMapsLoop total rest (fs.deleteFolder p)
            (cacheDelete c (basename p)) (del + 1)).1 := by
        simp [deleteMapsLoop, hex]
      rw [hstep]
      constructor
      · rw [List.chain'_cons']
        refine ⟨?_, ih.1⟩
        intro y hy
        have hb := ih.2 y (List.mem_of_mem_head? hy)
        exact ⟨Nat.le_of_eq hb.1.symm, hb.2⟩
      · intro s hs
        rcases List.mem_cons.mp hs with hh | hh
        · subst hh; exact ⟨rfl, Nat.le_succ del⟩
        · have hb := ih.2 s hh
          exact ⟨hb.1, Nat.le_trans (Nat.le_succ del) hb.2⟩
    · have ih := deleteMapsLoop_mono total rest fs c del
      have hstep : (deleteMapsLoop total (p :: rest) fs c del).1 =
          ⟨total, del⟩ :: (deleteMapsLoop total rest fs c del).1 := by
        simp [deleteMapsLoop, hex]
      rw [hstep]
      constructor
      · rw [List.chain'_cons']
        refine ⟨?_, ih.1⟩
        intro y hy
        have hb := ih.2 y (List.mem_of_mem_head? hy)
        exact ⟨Nat.le_of_eq hb.1.symm, hb.2⟩
      · intro s hs
        rcases List.mem_cons.mp hs with hh | hh
        · subst hh; exact ⟨rfl, Nat.le_refl del⟩
        · exact ih.2 s hh

/-- Helper: multi-unit import snapshots are monotone, bounded between the
starting and final counters, with constant total. -/
theorem importMultiUnits_mono (env : Env) (zip : ZipFile) (mapsFolder : String)
    (cache : Cache) (total : Nat) :
    ∀ (folders : List String) (fs : FSState) (cur : Nat),
      List.Chain' impRel
        (importMultiUnits env zip mapsFolder cache total folders fs cur).snaps
      ∧ (∀ s ∈ (importMultiUnits env zip mapsFolder cache total folders fs cur).snaps,
          s.total = total ∧ cur ≤ s.current
          ∧ s.current ≤ (importMultiUnits env zip mapsFolder cache total folders fs cur).cur)
      ∧ cur ≤ (importMultiUnits env zip mapsFolder cache total folders fs cur).cur
  | [], fs, cur => by simp [importMultiUnits]
  | rf :: rest, fs, cur => by
    have ih := importMultiUnits_mono env zip mapsFolder cache total rest
      (importMap env zip rf (basename rf) mapsFolder fs cache).2 (cur + 1)
    simp only [importMultiUnits]
    refine ⟨?_, ?_, Nat.le_trans (Nat.le_succ cur) ih.2.2⟩
    · rw [List.chain'_cons']
      refine ⟨?_, ih.1⟩
      intro y hy
      have hb := ih.2.1 y (List.mem_of_mem_head? hy)
      exact ⟨Nat.le_of_eq hb.1.symm, hb.2.1⟩
    · intro s hs
      rcases List.mem_cons.mp hs with hh | hh
      · subst hh
        exact ⟨rfl, Nat.le_succ cur, ih.2.2⟩
      · have hb := ih.2.1 s hh
        exact ⟨hb.1, Nat.le_trans (Nat.le_succ cur) hb.2.1, hb.2.2⟩

/-- Helper: snapshots of one stage-two archive are monotone and bounded
by the outgoing counter. -/
theorem processZip_mono (env : Env) (zipRead : String → Option ZipFile)
    (mapsFolder : String) (cache : Cache) (total : Nat) (pe : ZipPlanEntry)
    (fs : FSState) (cur : Nat) :
    List.Chain' impRel (processZip env zipRead mapsFolder cache total pe fs cur).1
    ∧ (∀ s ∈ (processZip env zipRead mapsFolder cache total pe fs cur).1,
        s.total = total ∧ cur ≤ s.current
        ∧ s.current ≤ (processZip env zipRead mapsFolder cache total pe fs cur).2.2)
    ∧ cur ≤ (processZip env zipRead mapsFolder cache total pe fs cur).2.2 := by
  cases hz : zipRead pe.path with
  | none =>
    simp only [processZip, hz]
    refine ⟨List.chain'_singleton _, ?_, Nat.le_refl cur⟩
    intro s hs
    simp only [List.mem_singleton] at hs
    subst hs
    exact ⟨rfl, Nat.le_refl cur, Nat.le_refl cur⟩
  | some z =>
    by_cases hsg : pe.single = true
    · have hstep : processZip env zipRead mapsFolder cache total pe fs cur =
          ([⟨total, cur + 1,
            (importMap env z "" (basenameExt pe.path ".zip") mapsFolder fs cache).1.toOption⟩],
           (importMap env z "" (basenameExt pe.path ".zip") mapsFolder fs cache).2, cur + 1) := by
        simp [processZip, hz, hsg]
      rw [hstep]
      refine ⟨List.chain'_singleton _, ?_, Nat.le_succ cur⟩
      intro s hs
      simp only [List.mem_singleton] at hs
      subst hs
      exact ⟨rfl, Nat.le_succ cur, Nat.le_refl _⟩
    · have hstep : processZip env zipRead mapsFolder cache total pe fs cur =
          ((importMultiUnits env z mapsFolder cache total pe.folders fs cur).snaps,
           (importMultiUnits env z mapsFolder cache total pe.folders fs cur).fs,
           (importMultiUnits env z mapsFolder cache total pe.folders fs cur).cur) := by
        simp [processZip, hz, hsg]
      rw [hstep]
      have hm := importMultiUnits_mono env z mapsFolder cache total pe.folders fs cur
      exact ⟨hm.1, hm.2.1, hm.2.2⟩

/-- Helper: stage-two snapshots across all archives are monotone. -/
theorem processZips_mono (env : Env) (zipRead : String → Option ZipFile)
    (mapsFolder : String) (cache : Cache) (total : Nat) :
    ∀ (plans : List ZipPlanEntry) (fs : FSState) (cur : Nat),
      List.Chain' impRel (processZips env zipRead mapsFolder cache total plans fs cur).1
      ∧ ∀ s ∈ (processZips env zipRead mapsFolder cache total plans fs cur).1,
          s.total = total ∧ cur ≤ s.current
  | [], fs, cur => by simp [processZips]
  | pe :: rest, fs, cur => by
    have h1 := processZip_mono env zipRead mapsFolder cache total pe fs cur
    have ih := processZips_mono env zipRead mapsFolder cache total rest
      (processZip env zipRead mapsFolder cache total pe fs cur).2.1
      (processZip env zipRead mapsFolder cache total pe fs cur).2.2
    simp only [processZips]
    constructor
    · rw [List.chain'_append]
      refine ⟨h1.1, ih.1, ?_⟩
      intro x hx y hy
      have hxb := h1.2.1 x (List.mem_of_mem_getLast? hx)
      have hyb := ih.2 y (List.mem_of_mem_head? hy)
      exact ⟨Nat.le_of_eq (hxb.1.trans hyb.1.symm), Nat.le_trans hxb.2.2 hyb.2⟩
    · intro s hs
      rcases List.mem_append.mp hs with hh | hh
      · have hb := h1.2.1 s hh
        exact ⟨hb.1, hb.2.1⟩
      · have hb := ih.2 s hh
        exact ⟨hb.1, Nat.le_trans h1.2.2 hb.2⟩

/-- Helper: the import emission list is monotone. -/
theorem importSnapshots_chain (env : Env) (zipRead : String → Option ZipFile)
    (fs : FSState) (cache : Cache) (zipPaths : List String) (mapsFolder : String) :
    List.Chain' impRel (importSnapshots env zipRead fs cache zipPaths mapsFolder) := by
  by_cases h : (planZips zipRead zipPaths).2 = 0
  · have hstep : importSnapshots env zipRead fs cache zipPaths mapsFolder = [] := by
      simp [importSnapshots, handleZipPaths, h]
    rw [hstep]
    exact List.chain'_nil
  · have hstep : importSnapshots env zipRead fs cache zipPaths mapsFolder =
        ⟨(planZips zipRead zipPaths).2, 0, none⟩ ::
          (processZips env zipRead mapsFolder cache (planZips zipRead zipPaths).2
            (planZips zipRead zipPaths).1 fs 0).1 := by
      simp [importSnapshots, handleZipPaths, h]
    rw [hstep]
    rw [List.chain'_cons']
    have hm := processZips_mono env zipRead mapsFolder cache (planZips zipRead zipPaths).2
      (planZips zipRead zipPaths).1 fs 0
    refine ⟨?_, hm.1⟩
    intro y hy
    have hb := hm.2 y (List.mem_of_mem_head? hy)
    exact ⟨Nat.le_of_eq hb.1.symm, hb.2⟩

/-- C9: within one pipeline run of each of the four pipelines (folder
scan, delete-by-list, delete-by-hash, import) the counters of the emitted
progress snapshots are monotonically non-decreasing: each adjacent pair
of snapshots has non-decreasing total and non-decreasing
loaded/deleted/current. -/
theorem c9_progress_monotone (env : Env) (fs1 : FSState) (cache1 : Cache)
    (levelsFolder : String) (maps : List String) (fs2 : FSState) (cache2 : Cache)
    (fs3 : FSState) (cache3 : Cache) (root : String) (hashs : List String)
    (zipRead : String → Option ZipFile) (fs4 : FSState) (cache4 : Cache)
    (zipPaths : List String) (mapsFolder : String) :
    List.Chain' scanRel (getMapsModel env fs1 cache1 levelsFolder).1
    ∧ List.Chain' delRel (deleteMapsModel maps fs2 cache2).1
    ∧ List.Chain' progRel (deleteMapsFromHashsModel env fs3 cache3 root hashs).snaps
    ∧ List.Chain' impRel (importSnapshots env zipRead fs4 cache4 zipPaths mapsFolder) :=
  ⟨getMaps_chain env fs1 cache1 levelsFolder,
   (deleteMapsLoop_mono maps.length maps fs2 cache2 0).1,
   (delH_core env hashs hashs.length (fs3.foldersIn root) fs3 cache3 0).2.2.2,
   importSnapshots_chain env zipRead fs4 cache4 zipPaths mapsFolder⟩

end BsMaps
